import Mathlib

/-!
Verification of the numerical core of `hypo.py` (joint hypocenter-velocity
inversion on a regular 3-D cubic grid).

The Python source is shallowly embedded over exact rationals: every floating
point quantity becomes a `ℚ`, numpy arrays become lists or functions out of
`ℕ`/`Fin n`, and fallible numpy calls (`np.linalg.solve` raising
`LinAlgError`, Python `NameError` on an unbound name) become `Except`
values.  Quantities produced by the external eikonal raytracer
(`cgrid3d.Grid3Dcpp.raytrace`: ray polylines, initial-segment velocities)
are out of scope of the repository and enter the embedding as inputs, as do
the Euclidean norms `ds = sqrt(dx*dx+dy*dy+dz*dz)` that are irrational over
`ℚ`; where a theorem needs the defining property of such a norm it is stated
as an explicit hypothesis or checked at the concrete witness input.
-/

set_option maxHeartbeats 1000000

namespace HypoPy

/-- Rational model of `np.sign`: `1` on positives, `-1` on negatives, `0` at `0`. -/
def npSign (v : ℚ) : ℚ := if 0 < v then 1 else if v < 0 then -1 else 0

/-- One entry of the clamping loops of `hypo.py`
(`jointHypoVel` lines 768-770, `jointHypoVelPS` lines 1406-1411,
`_relocPS` lines 1623-1627): the statement
`if np.abs(x) > dmax: x = dmax * np.sign(x)` applied to a single entry. -/
def clampDelta (dmax v : ℚ) : ℚ := if dmax < |v| then dmax * npSign v else v

theorem abs_clampDelta_le (dmax v : ℚ) (h : 0 ≤ dmax) : |clampDelta dmax v| ≤ dmax := by
  unfold clampDelta npSign
  by_cases h1 : dmax < |v|
  · rcases lt_trichotomy v 0 with h2 | h2 | h2
    · simp only [h1, if_true, not_lt.mpr h2.le, if_false, h2, mul_neg, mul_one]
      rw [abs_neg, abs_of_nonneg h]
    · exfalso
      rw [h2, abs_zero] at h1
      exact absurd h (not_le.mpr h1)
    · simp only [h1, if_true, h2, mul_one]
      exact le_of_eq (abs_of_nonneg h)
  · simp only [h1, if_false]
    exact not_lt.mp h1

/-! ## C3 : element-wise clamping of the applied velocity update

`jointHypoVel` lines 768-772: the entries `deltam[:nnodes]` are clamped to
`dVp_max` and added to `V`.  `jointHypoVelPS` lines 1406-1423: entries
`deltam[:nnodes]` are clamped to `dVp_max`, entries
`deltam[nnodes:2*nnodes]` to `dVs_max`, the clamped vector is added to the
stacked model `V = [Vp; VsVp-or-Vs]`, and in `invert_VsVp` mode the S
velocity is recomputed as `Vs = np.multiply(VsVp, Vp)` (line 1417, matching
its definition `VsVp = Vs/Vp` at line 1092). -/

/-- `jointHypoVel` lines 768-772: new `V` after the clamped update
(`deltam[i] = dVp_max*np.sign(deltam[i])` where `|deltam[i]| > dVp_max`,
then `V += deltam[:nnodes]`), per node `n < nnodes`. -/
def jointHypoVel_newV (dVp_max : ℚ) (V deltam : ℕ → ℚ) : ℕ → ℚ :=
  fun n => V n + clampDelta dVp_max (deltam n)

/-- `jointHypoVelPS` lines 1406-1411: the clamped update vector, entry `i`
of the stacked model (`i < nnodes` is the Vp block, `nnodes ≤ i < 2*nnodes`
the VsVp-or-Vs block). -/
def jointHypoVelPS_clampedDeltam (nnodes : ℕ) (dVp_max dVs_max : ℚ)
    (deltam : ℕ → ℚ) : ℕ → ℚ :=
  fun i => if i < nnodes then clampDelta dVp_max (deltam i)
           else clampDelta dVs_max (deltam i)

/-- `jointHypoVelPS` line 1413: `V += deltam[:2*nnodes]` with the clamped
`deltam`, entrywise on the stacked model vector. -/
def jointHypoVelPS_newV (nnodes : ℕ) (dVp_max dVs_max : ℚ)
    (V deltam : ℕ → ℚ) : ℕ → ℚ :=
  fun i => V i + jointHypoVelPS_clampedDeltam nnodes dVp_max dVs_max deltam i

/-- The S-wave velocity derived from the stacked model vector
(`jointHypoVelPS` lines 1414-1419): in `invert_VsVp` mode the second block
holds the ratio `VsVp` and `Vs = np.multiply(VsVp, Vp)`; otherwise the
second block is `Vs` itself. -/
def VsOfStacked (invert_VsVp : Bool) (nnodes : ℕ) (V : ℕ → ℚ) : ℕ → ℚ :=
  if invert_VsVp then fun n => V (nnodes + n) * V n else fun n => V (nnodes + n)

/-- C3, counterexample.  One node (`nnodes = 1`), `Vp = 100`, ratio
`VsVp = 1` (so `Vs = 100`), clamps `dVp_max = 50`, `dVs_max = 1`, update
`deltam = (0, 1/2)`.  Both clamp tests pass untouched
(`|0| ≤ 50`, `|1/2| ≤ 1`), yet the recomputed S velocity moves from `100`
to `(3/2)*100 = 150`: the change `50` exceeds `dVs_max = 1`.  So in the
`invert_VsVp` mode the element-wise bound `|Vs[n] - Vs_prev[n]| ≤ dVs_max`
claimed for every iteration is false. -/
theorem C3_counterexample :
    let V0 : ℕ → ℚ := fun i => if i = 0 then 100 else 1
    let dm : ℕ → ℚ := fun i => if i = 0 then 0 else 1/2
    let newV := jointHypoVelPS_newV 1 50 1 V0 dm
    jointHypoVelPS_clampedDeltam 1 50 1 dm 0 = dm 0 ∧
    jointHypoVelPS_clampedDeltam 1 50 1 dm 1 = dm 1 ∧
    VsOfStacked true 1 V0 0 = 100 ∧
    VsOfStacked true 1 newV 0 = 150 ∧
    ¬ (|VsOfStacked true 1 newV 0 - VsOfStacked true 1 V0 0| ≤ 1) := by
  have habs : |(1:ℚ)/2| = 1/2 := by rw [abs_of_nonneg]; norm_num
  refine ⟨?_, ?_, ?_, ?_, ?_⟩ <;>
    norm_num [jointHypoVelPS_clampedDeltam, jointHypoVelPS_newV, VsOfStacked,
      jointHypoVel_newV, clampDelta, npSign, habs]

/-- C3, amended: the clamp bounds the per-iteration change of every entry of
the parameter vector itself.  For all nodes `n`:
`|V_p[n] - V_p_prev[n]| ≤ dVp_max` in the single-phase solver; in the
two-phase solver the Vp block changes by at most `dVp_max` and the second
block (Vs, or the ratio VsVp in `invert_VsVp` mode) by at most `dVs_max`;
consequently `|V_s[n] - V_s_prev[n]| ≤ dVs_max` when `invert_VsVp` is
false.  (In ratio mode only the ratio is clamped; `V_s = VsVp * V_p` may
move by more, see the counterexample.) -/
theorem C3_clamped_updates (nnodes n : ℕ) (dVp_max dVs_max : ℚ)
    (V deltam : ℕ → ℚ) (hp : 0 ≤ dVp_max) (hs : 0 ≤ dVs_max) :
    |jointHypoVel_newV dVp_max V deltam n - V n| ≤ dVp_max ∧
    (n < nnodes →
      |jointHypoVelPS_newV nnodes dVp_max dVs_max V deltam n - V n| ≤ dVp_max) ∧
    |jointHypoVelPS_newV nnodes dVp_max dVs_max V deltam (nnodes + n)
      - V (nnodes + n)| ≤ dVs_max ∧
    |VsOfStacked false nnodes (jointHypoVelPS_newV nnodes dVp_max dVs_max V deltam) n
      - VsOfStacked false nnodes V n| ≤ dVs_max := by
  have hnn : ¬ (nnodes + n < nnodes) := by omega
  refine ⟨?_, fun hlt => ?_, ?_, ?_⟩
  · simpa [jointHypoVel_newV] using abs_clampDelta_le dVp_max (deltam n) hp
  · simpa [jointHypoVelPS_newV, jointHypoVelPS_clampedDeltam, hlt] using
      abs_clampDelta_le dVp_max (deltam n) hp
  · simpa [jointHypoVelPS_newV, jointHypoVelPS_clampedDeltam, hnn] using
      abs_clampDelta_le dVs_max (deltam (nnodes + n)) hs
  · simpa [VsOfStacked, jointHypoVelPS_newV, jointHypoVelPS_clampedDeltam, hnn] using
      abs_clampDelta_le dVs_max (deltam (nnodes + n)) hs

/-- Witness for `C3_clamped_updates` at a concrete input. -/
theorem C3_clamped_updates_witness :
    (0:ℚ) ≤ 50 ∧ (0:ℚ) ≤ 25 ∧
    |jointHypoVel_newV 50 (fun _ => 4000) (fun _ => 80) 0 - 4000| ≤ 50 := by
  refine ⟨by norm_num, by norm_num, ?_⟩
  have h := (C3_clamped_updates 3 0 50 25 (fun _ => 4000) (fun _ => 80)
    (by norm_num) (by norm_num)).1
  simpa using h

/-! ## C4 : hypocenters remain inside the grid bounds across relocation

`Grid3D.isOutside` (hypo.py lines 244-250) tests a batch of points against
the grid bounds; `_reloc` (lines 877-940) and `_relocPS` (lines 1560-1634)
call it on the trial position held in a copy (`new_hyp`) and return from
the relocation (leaving the stored row at its last value) when the trial is
outside; otherwise the same update is applied to `hyp0`.  The proposed
updates `deltah` come from `np.linalg.lstsq` on raytraced sensitivities;
the external raytracer and the dense solve are abstracted by quantifying
over an arbitrary finite sequence of proposed updates, one per inner
iteration (an inner solve failure that ends the loop early corresponds to a
shorter sequence). -/

/-- The grid bounds `x[0], x[-1], y[0], y[-1], z[0], z[-1]` used by
`Grid3D.isOutside`. -/
structure GridBounds where
  xmin : ℚ
  xmax : ℚ
  ymin : ℚ
  ymax : ℚ
  zmin : ℚ
  zmax : ℚ

/-- `Grid3D.isOutside` (hypo.py lines 244-250) specialized to the single
point that `_reloc` / `_relocPS` test (`min` and `max` over one row are the
row itself). -/
def isOutside (g : GridBounds) (p : ℚ × ℚ × ℚ) : Bool :=
  decide (p.1 < g.xmin) || decide (g.xmax < p.1) ||
  decide (p.2.1 < g.ymin) || decide (g.ymax < p.2.1) ||
  decide (p.2.2 < g.zmin) || decide (g.zmax < p.2.2)

/-- A hypocenter row without its event-ID column: `(t0, x, y, z)`. -/
abbrev Hyp4 := ℚ × ℚ × ℚ × ℚ

/-- The spatial part `(x, y, z)` of a hypocenter row. -/
def hypXYZ (h : Hyp4) : ℚ × ℚ × ℚ := (h.2.1, h.2.2.1, h.2.2.2)

/-- Entrywise sum of a hypocenter row and an update `deltah`. -/
def hypAdd (h dh : Hyp4) : Hyp4 :=
  (h.1 + dh.1, h.2.1 + dh.2.1, h.2.2.1 + dh.2.2.1, h.2.2.2 + dh.2.2.2)

/-- All-parameter inner loop of `_reloc` (hypo.py lines 901-946), updates
abstracted as the list `dhs`: per iteration, form `new_hyp = hyp0 + deltah`,
return the stored row unchanged if the trial position is outside the grid,
otherwise apply the update and stop when all three position components of
`deltah` are below `conv_hypo` (the per-parameter clamps are commented out
in the single-phase source). -/
def reloc4Loop (g : GridBounds) (conv : ℚ) : Hyp4 → List Hyp4 → Hyp4
  | h, [] => h
  | h, dh :: rest =>
      let nh := hypAdd h dh
      if isOutside g (hypXYZ nh) then h
      else if |dh.2.1| < conv ∧ |dh.2.2.1| < conv ∧ |dh.2.2.2| < conv then nh
      else reloc4Loop g conv nh rest

/-- All-parameter inner loop of `_relocPS` (hypo.py lines 1584-1640): as
`reloc4Loop`, but `deltah` is first clamped componentwise (`dt_max` on the
origin-time component, `dx_max` on the three position components, lines
1623-1627) before the out-of-grid test and the update. -/
def relocPS4Loop (g : GridBounds) (conv dt_max dx_max : ℚ) :
    Hyp4 → List Hyp4 → Hyp4
  | h, [] => h
  | h, dh :: rest =>
      let dhc : Hyp4 := (clampDelta dt_max dh.1, clampDelta dx_max dh.2.1,
        clampDelta dx_max dh.2.2.1, clampDelta dx_max dh.2.2.2)
      let nh := hypAdd h dhc
      if isOutside g (hypXYZ nh) then h
      else if |dhc.2.1| < conv ∧ |dhc.2.2.1| < conv ∧ |dhc.2.2.2| < conv then nh
      else relocPS4Loop g conv dt_max dx_max nh rest

/-- Two-step `(x, y)` pre-loop of `_reloc` / `_relocPS` (hypo.py lines
845-894 and 1516-1577): only `x` and `y` move, the trial full position is
tested against the grid, and hitting the boundary aborts the whole
relocation (the `Bool` result records the abort, which skips the
all-parameter step as well). -/
def reloc2Loop (g : GridBounds) (conv : ℚ) : Hyp4 → List (ℚ × ℚ) → Hyp4 × Bool
  | h, [] => (h, false)
  | h, dh :: rest =>
      let nh : Hyp4 := (h.1, h.2.1 + dh.1, h.2.2.1 + dh.2, h.2.2.2)
      if isOutside g (hypXYZ nh) then (h, true)
      else if |dh.1| < conv ∧ |dh.2| < conv then (nh, false)
      else reloc2Loop g conv nh rest

/-- `_reloc` (hypo.py lines 824-951): optional two-step `(x,y)` phase, then
the all-parameter phase; an abort in the first phase returns immediately. -/
def relocModel (g : GridBounds) (conv : ℚ) (hypo_2step : Bool) (h0 : Hyp4)
    (dh2s : List (ℚ × ℚ)) (dh4s : List Hyp4) : Hyp4 :=
  if hypo_2step then
    match reloc2Loop g conv h0 dh2s with
    | (h1, true) => h1
    | (h1, false) => reloc4Loop g conv h1 dh4s
  else reloc4Loop g conv h0 dh4s

/-- `_relocPS` (hypo.py lines 1486-1645): as `relocModel` with the clamped
all-parameter phase. -/
def relocPSModel (g : GridBounds) (conv dt_max dx_max : ℚ) (hypo_2step : Bool)
    (h0 : Hyp4) (dh2s : List (ℚ × ℚ)) (dh4s : List Hyp4) : Hyp4 :=
  if hypo_2step then
    match reloc2Loop g conv h0 dh2s with
    | (h1, true) => h1
    | (h1, false) => relocPS4Loop g conv dt_max dx_max h1 dh4s
  else relocPS4Loop g conv dt_max dx_max h0 dh4s

/-- One outer-iteration sequence of relocations of a single event
(`jointHypoVel` lines 776-782 call `_reloc` once per outer iteration; the
list holds one pair of proposed update sequences per outer iteration). -/
def relocIterates (g : GridBounds) (conv : ℚ) (hypo_2step : Bool) (h0 : Hyp4)
    (its : List (List (ℚ × ℚ) × List Hyp4)) : Hyp4 :=
  its.foldl (fun h u => relocModel g conv hypo_2step h u.1 u.2) h0

theorem reloc4Loop_inside (g : GridBounds) (conv : ℚ) :
    ∀ (dhs : List Hyp4) (h : Hyp4), isOutside g (hypXYZ h) = false →
      isOutside g (hypXYZ (reloc4Loop g conv h dhs)) = false := by
  intro dhs
  induction dhs with
  | nil => intro h hh; simpa [reloc4Loop] using hh
  | cons dh rest ih =>
      intro h hh
      show isOutside g (hypXYZ (reloc4Loop g conv h (dh :: rest))) = false
      rw [reloc4Loop]
      by_cases ho : isOutside g (hypXYZ (hypAdd h dh)) = true
      · simpa [ho] using hh
      · have ho' : isOutside g (hypXYZ (hypAdd h dh)) = false :=
          Bool.not_eq_true _ ▸ (by simpa using ho)
        by_cases hc : |dh.2.1| < conv ∧ |dh.2.2.1| < conv ∧ |dh.2.2.2| < conv
        · simp only [ho', hc, Bool.false_eq_true, if_false, if_true]
          exact ho'
        · simpa [ho', hc] using ih _ ho'

theorem relocPS4Loop_inside (g : GridBounds) (conv dt_max dx_max : ℚ) :
    ∀ (dhs : List Hyp4) (h : Hyp4), isOutside g (hypXYZ h) = false →
      isOutside g (hypXYZ (relocPS4Loop g conv dt_max dx_max h dhs)) = false := by
  intro dhs
  induction dhs with
  | nil => intro h hh; simpa [relocPS4Loop] using hh
  | cons dh rest ih =>
      intro h hh
      rw [relocPS4Loop]
      set dhc : Hyp4 := (clampDelta dt_max dh.1, clampDelta dx_max dh.2.1,
        clampDelta dx_max dh.2.2.1, clampDelta dx_max dh.2.2.2) with hdhc
      by_cases ho : isOutside g (hypXYZ (hypAdd h dhc)) = true
      · simpa [ho] using hh
      · have ho' : isOutside g (hypXYZ (hypAdd h dhc)) = false := by simpa using ho
        by_cases hc : |dhc.2.1| < conv ∧ |dhc.2.2.1| < conv ∧ |dhc.2.2.2| < conv
        · simp only [ho', hc, Bool.false_eq_true, if_false, if_true]
          exact ho'
        · simpa [ho', hc] using ih _ ho'

theorem reloc2Loop_inside (g : GridBounds) (conv : ℚ) :
    ∀ (dhs : List (ℚ × ℚ)) (h : Hyp4), isOutside g (hypXYZ h) = false →
      isOutside g (hypXYZ (reloc2Loop g conv h dhs).1) = false := by
  intro dhs
  induction dhs with
  | nil => intro h hh; simpa [reloc2Loop] using hh
  | cons dh rest ih =>
      intro h hh
      rw [reloc2Loop]
      set nh : Hyp4 := (h.1, h.2.1 + dh.1, h.2.2.1 + dh.2, h.2.2.2) with hnh
      by_cases ho : isOutside g (hypXYZ nh) = true
      · simpa [ho] using hh
      · have ho' : isOutside g (hypXYZ nh) = false := by simpa using ho
        by_cases hc : |dh.1| < conv ∧ |dh.2| < conv
        · simp only [ho', hc, Bool.false_eq_true, if_false, if_true]
          exact ho'
        · simpa [ho', hc] using ih _ ho'

theorem relocModel_inside (g : GridBounds) (conv : ℚ) (hypo_2step : Bool)
    (h0 : Hyp4) (dh2s : List (ℚ × ℚ)) (dh4s : List Hyp4)
    (hh : isOutside g (hypXYZ h0) = false) :
    isOutside g (hypXYZ (relocModel g conv hypo_2step h0 dh2s dh4s)) = false := by
  unfold relocModel
  cases hypo_2step with
  | false => simpa using reloc4Loop_inside g conv dh4s h0 hh
  | true =>
      have h2 := reloc2Loop_inside g conv dh2s h0 hh
      rcases hp : reloc2Loop g conv h0 dh2s with ⟨h1, b⟩
      rw [hp] at h2
      cases b with
      | true => simpa using h2
      | false => simpa using reloc4Loop_inside g conv dh4s h1 h2

theorem relocPSModel_inside (g : GridBounds) (conv dt_max dx_max : ℚ)
    (hypo_2step : Bool) (h0 : Hyp4) (dh2s : List (ℚ × ℚ)) (dh4s : List Hyp4)
    (hh : isOutside g (hypXYZ h0) = false) :
    isOutside g (hypXYZ
      (relocPSModel g conv dt_max dx_max hypo_2step h0 dh2s dh4s)) = false := by
  unfold relocPSModel
  cases hypo_2step with
  | false => simpa using relocPS4Loop_inside g conv dt_max dx_max dh4s h0 hh
  | true =>
      have h2 := reloc2Loop_inside g conv dh2s h0 hh
      rcases hp : reloc2Loop g conv h0 dh2s with ⟨h1, b⟩
      rw [hp] at h2
      cases b with
      | true => simpa using h2
      | false => simpa using relocPS4Loop_inside g conv dt_max dx_max dh4s h1 h2

/-- C4: a hypocenter that is inside the grid bounds before relocation is
still inside after `_reloc` returns (for any sequences of proposed inner
updates, with or without the two-step mode), likewise after `_relocPS`
returns, and hence after any number of outer iterations each running a
relocation pass. -/
theorem C4_reloc_stays_inside (g : GridBounds) (conv dt_max dx_max : ℚ)
    (hypo_2step : Bool) (h0 : Hyp4) (dh2s : List (ℚ × ℚ)) (dh4s : List Hyp4)
    (its : List (List (ℚ × ℚ) × List Hyp4))
    (hh : isOutside g (hypXYZ h0) = false) :
    isOutside g (hypXYZ (relocModel g conv hypo_2step h0 dh2s dh4s)) = false ∧
    isOutside g (hypXYZ
      (relocPSModel g conv dt_max dx_max hypo_2step h0 dh2s dh4s)) = false ∧
    isOutside g (hypXYZ (relocIterates g conv hypo_2step h0 its)) = false := by
  refine ⟨relocModel_inside g conv hypo_2step h0 dh2s dh4s hh,
    relocPSModel_inside g conv dt_max dx_max hypo_2step h0 dh2s dh4s hh, ?_⟩
  unfold relocIterates
  induction its generalizing h0 with
  | nil => simpa using hh
  | cons u rest ih =>
      simpa using ih (relocModel g conv hypo_2step h0 u.1 u.2)
        (relocModel_inside g conv hypo_2step h0 u.1 u.2 hh)

/-- Witness for `C4_reloc_stays_inside`: a unit-cube grid, a centered
hypocenter and an update sequence that tries to leave the grid. -/
theorem C4_reloc_stays_inside_witness :
    let g : GridBounds := ⟨0, 1, 0, 1, 0, 1⟩
    let h0 : Hyp4 := (0, 1/2, 1/2, 1/2)
    isOutside g (hypXYZ h0) = false ∧
    isOutside g (hypXYZ (relocModel g (1/100) true h0 [(2, 0)]
      [(0, 3, 0, 0)])) = false := by
  have hin : isOutside ⟨0, 1, 0, 1, 0, 1⟩
      (hypXYZ ((0, 1/2, 1/2, 1/2) : Hyp4)) = false := by
    norm_num [isOutside, hypXYZ]
  refine ⟨hin, ?_⟩
  exact (C4_reloc_stays_inside ⟨0, 1, 0, 1, 0, 1⟩ (1/100) 1 1 true
    (0, 1/2, 1/2, 1/2) [(2, 0)] [(0, 3, 0, 0)] [] hin).1

/-! ## C9 : the smoothing matrices of `Grid3D.computeK` annihilate constant fields

`Grid3D.computeK` (hypo.py lines 332-401) builds `Kx, Ky, Kz` as
`scipy.sparse.csr_matrix((val, (iK, jK)))` from three parallel triplet
arrays: `iK = np.kron(np.arange(N), np.ones(3))` (each row index repeated
three times), `val = np.tile([1., -2., 1.], N) / dx**2` (the second
derivative stencil on every row), and per-matrix column arrays `jK`.
The embedding mirrors the triplet construction with lists; `csr_matrix`
sums duplicate triplets, so the product `K @ V` at row `i` is the sum of
`val*V[col]` over all triplets with row index `i` (`cooMatVecRow`). -/

/-- `np.arange(a, b)` as a list of naturals. -/
def arange (a b : ℕ) : List ℕ := (List.range (b - a)).map (a + ·)

/-- `np.vstack((a, b, c)).T.flatten()` for three equal-length 1-D arrays:
the elementwise interleaving `[a0, b0, c0, a1, b1, c1, ...]`. -/
def interleave3 (a b c : List ℕ) : List ℕ :=
  (a.zip (b.zip c)).flatMap fun p => [p.1, p.2.1, p.2.2]

/-- `np.kron(np.arange(n), np.ones(3))` as integer indices: every row index
below `n` repeated three times. -/
def kron3 (n : ℕ) : List ℕ := (List.range n).flatMap fun r => [r, r, r]

/-- `np.tile(np.array([1., -2., 1.]), n) / (dx*dx)` (hypo.py line 345). -/
def stencilVals (n : ℕ) (dx : ℚ) : List ℚ :=
  (List.range n).flatMap fun _ => [1/(dx*dx), -2/(dx*dx), 1/(dx*dx)]

/-- Column indices `jK` of `Kx` (hypo.py lines 347-360): a forward stencil
block for `i = 0`, centered blocks for `1 ≤ i ≤ nx-2`, a backward block for
`i = nx-1`; stencils stride by `ny*nz`. -/
def jKx (nx ny nz : ℕ) : List ℕ :=
  interleave3 (arange 0 (ny*nz)) (arange (ny*nz) (2*(ny*nz)))
      (arange (2*(ny*nz)) (3*(ny*nz)))
  ++ (List.range' 1 (nx-2)).flatMap (fun i =>
      interleave3 (arange ((i-1)*(ny*nz)) (i*(ny*nz)))
        (arange (i*(ny*nz)) ((i+1)*(ny*nz)))
        (arange ((i+1)*(ny*nz)) ((i+2)*(ny*nz))))
  ++ interleave3 (arange ((nx-3)*(ny*nz)) ((nx-2)*(ny*nz)))
      (arange ((nx-2)*(ny*nz)) ((nx-1)*(ny*nz)))
      (arange ((nx-1)*(ny*nz)) (nx*(ny*nz)))

/-- The single-`x`-plane part of `jK` for `Ky` (hypo.py lines 365-377):
forward block at `j = 0`, centered blocks, backward block at `j = ny-1`,
striding by `nz`. -/
def jKyBase (ny nz : ℕ) : List ℕ :=
  interleave3 (arange 0 nz) (arange nz (2*nz)) (arange (2*nz) (3*nz))
  ++ (List.range' 1 (ny-2)).flatMap (fun j =>
      interleave3 (arange ((j-1)*nz) (j*nz)) (arange (j*nz) ((j+1)*nz))
        (arange ((j+1)*nz) ((j+2)*nz)))
  ++ interleave3 (arange ((ny-3)*nz) ((ny-2)*nz))
      (arange ((ny-2)*nz) ((ny-1)*nz)) (arange ((ny-1)*nz) (ny*nz))

/-- Column indices of `Ky` (hypo.py lines 365-380): the base block copied
across the `x` planes by `jK = hstack((jK, i*ny*nz + tmp))`. -/
def jKy (nx ny nz : ℕ) : List ℕ :=
  jKyBase ny nz
  ++ (List.range' 1 (nx-1)).flatMap fun i => (jKyBase ny nz).map (i*(ny*nz) + ·)

/-- The single-`z`-column part of `jK` for `Kz` (hypo.py lines 385-389). -/
def jKzBase (nz : ℕ) : List ℕ :=
  arange 0 3
  ++ (List.range' 1 (nz-2)).flatMap (fun k => (arange 0 3).map ((k-1) + ·))
  ++ (arange 0 3).map ((nz-3) + ·)

/-- Intermediate stage of the `Kz` column array (hypo.py lines 391-393):
the base block copied across `y` by `jK = hstack((jK, j*nz + tmp))`. -/
def jKzBase2 (ny nz : ℕ) : List ℕ :=
  jKzBase nz ++ (List.range' 1 (ny-1)).flatMap fun j => (jKzBase nz).map (j*nz + ·)

/-- Column indices of `Kz` (hypo.py lines 385-397): the `y`-tiled block
copied across `x` by `jK = hstack((jK, i*ny*nz + tmp))`. -/
def jKz (nx ny nz : ℕ) : List ℕ :=
  jKzBase2 ny nz
  ++ (List.range' 1 (nx-1)).flatMap fun i => (jKzBase2 ny nz).map (i*(ny*nz) + ·)

/-- Three parallel arrays zipped into `(row, col, val)` triplets, truncating
at the shortest (the numpy arrays all have length `3*N`). -/
def zipTriplets : List ℕ → List ℕ → List ℚ → List (ℕ × ℕ × ℚ)
  | i :: is, j :: js, v :: vs => (i, j, v) :: zipTriplets is js vs
  | _, _, _ => []

/-- Row `i` of the product of a duplicate-summing triplet matrix
(`scipy.sparse.csr_matrix((val, (iK, jK)))`) with the vector `V`. -/
def cooMatVecRow (L : List (ℕ × ℕ × ℚ)) (V : ℕ → ℚ) (i : ℕ) : ℚ :=
  (L.map fun t => if t.1 = i then t.2.2 * V t.2.1 else 0).sum

/-- The triplets of `Kx` as built at hypo.py line 362. -/
def KxTriplets (nx ny nz : ℕ) (dx : ℚ) : List (ℕ × ℕ × ℚ) :=
  zipTriplets (kron3 (nx*ny*nz)) (jKx nx ny nz) (stencilVals (nx*ny*nz) dx)

/-- The triplets of `Ky` as built at hypo.py line 382. -/
def KyTriplets (nx ny nz : ℕ) (dx : ℚ) : List (ℕ × ℕ × ℚ) :=
  zipTriplets (kron3 (nx*ny*nz)) (jKy nx ny nz) (stencilVals (nx*ny*nz) dx)

/-- The triplets of `Kz` as built at hypo.py line 399. -/
def KzTriplets (nx ny nz : ℕ) (dx : ℚ) : List (ℕ × ℕ × ℚ) :=
  zipTriplets (kron3 (nx*ny*nz)) (jKz nx ny nz) (stencilVals (nx*ny*nz) dx)

theorem arange_length (a b : ℕ) : (arange a b).length = b - a := by
  simp [arange]

theorem sum_map_const_nat {alpha : Type} (l : List alpha) (c : ℕ) :
    (l.map fun _ => c).sum = c * l.length := by
  induction l with
  | nil => simp
  | cons x xs ih => simp [ih, Nat.mul_succ, Nat.add_comm, Nat.mul_comm]

theorem interleave3_length (a b c : List ℕ) (m : ℕ) (ha : a.length = m)
    (hb : b.length = m) (hc : c.length = m) : (interleave3 a b c).length = 3 * m := by
  unfold interleave3
  rw [List.length_flatMap]
  have hz : (a.zip (b.zip c)).length = m := by
    simp [List.length_zip, ha, hb, hc]
  calc ((a.zip (b.zip c)).map fun p => [p.1, p.2.1, p.2.2].length).sum
      = ((a.zip (b.zip c)).map fun _ => 3).sum := by
        congr 1
    _ = 3 * m := by rw [sum_map_const_nat, hz]

/-- The key cancellation: zipping any column list with the repeated row
indices and the tiled stencil values gives a matrix whose every row sum of
values is `(1 - 2 + 1)/dx² = 0`, so applying it to a constant vector gives
`0` in every row.  Stated for row lists of the `kron3`/`stencilVals` shape. -/
theorem cooMatVecRow_stencil_const (dx c : ℚ) (V : ℕ → ℚ) (hV : ∀ k, V k = c) :
    ∀ (rs : List ℕ) (js : List ℕ), js.length = 3 * rs.length → ∀ i,
      cooMatVecRow (zipTriplets (rs.flatMap fun r => [r, r, r]) js
        (rs.flatMap fun _ => [1/(dx*dx), -2/(dx*dx), 1/(dx*dx)])) V i = 0 := by
  intro rs
  induction rs with
  | nil => intro js _ i; simp [cooMatVecRow, zipTriplets]
  | cons r rest ih =>
      intro js hlen i
      match js, hlen with
      | j1 :: j2 :: j3 :: js', hlen =>
        have hlen' : js'.length = 3 * rest.length := by
          simp only [List.length_cons] at hlen
          omega
        have hdr : (r :: rest).flatMap (fun r => [r, r, r])
            = r :: r :: r :: rest.flatMap (fun r => [r, r, r]) := by
          simp
        have hdv : ((r :: rest).flatMap
              fun _ => [1/(dx*dx), -2/(dx*dx), 1/(dx*dx)])
            = 1/(dx*dx) :: -2/(dx*dx) :: 1/(dx*dx)
              :: rest.flatMap (fun _ => [1/(dx*dx), -2/(dx*dx), 1/(dx*dx)]) := by
          simp
        rw [hdr, hdv]
        have htail := ih js' hlen' i
        unfold cooMatVecRow at htail ⊢
        simp only [zipTriplets, List.map_cons, List.sum_cons]
        rw [htail, add_zero]
        by_cases hri : r = i
        · simp only [hri, if_true, hV]
          ring
        · simp [hri]

theorem jKx_length (nx ny nz : ℕ) (hx : 3 ≤ nx) :
    (jKx nx ny nz).length = 3 * (nx*ny*nz) := by
  obtain ⟨k, rfl⟩ : ∃ k, nx = k + 3 := ⟨nx - 3, by omega⟩
  have hstep : ∀ a : ℕ, (arange (a*(ny*nz)) ((a+1)*(ny*nz))).length = ny*nz := by
    intro a
    rw [arange_length, Nat.succ_mul, Nat.add_sub_cancel_left]
  unfold jKx
  rw [List.length_append, List.length_append]
  rw [interleave3_length _ _ _ (ny*nz) (by simpa using hstep 0)
    (by simpa using hstep 1) (by simpa using hstep 2)]
  rw [interleave3_length _ _ _ (ny*nz) (by simpa using hstep k)
    (by simpa using hstep (k+1)) (by simpa using hstep (k+2))]
  have hmid : ∀ i ∈ List.range' 1 (k+3-2),
      (interleave3 (arange ((i-1)*(ny*nz)) (i*(ny*nz)))
        (arange (i*(ny*nz)) ((i+1)*(ny*nz)))
        (arange ((i+1)*(ny*nz)) ((i+2)*(ny*nz)))).length = 3 * (ny*nz) := by
    intro i hi
    have h1 : 1 ≤ i := (List.mem_range'_1.mp hi).1
    obtain ⟨a, rfl⟩ : ∃ a, i = a + 1 := ⟨i - 1, by omega⟩
    refine interleave3_length _ _ _ (ny*nz) ?_ ?_ ?_
    · simpa using hstep a
    · simpa using hstep (a+1)
    · simpa using hstep (a+2)
  rw [List.length_flatMap]
  simp only [Function.comp_def]
  rw [List.map_congr_left hmid, sum_map_const_nat]
  simp only [List.length_range']
  have h2 : k + 3 - 2 = k + 1 := by omega
  rw [h2]
  ring

theorem shiftBlocks_length (L : List ℕ) (f : ℕ → ℕ → ℕ) (s c : ℕ) :
    ((List.range' s c).flatMap fun i => L.map (f i)).length = c * L.length := by
  rw [List.length_flatMap]
  simp only [Function.comp_def, List.length_map]
  rw [sum_map_const_nat, List.length_range']
  exact Nat.mul_comm _ _

theorem jKyBase_length (ny nz : ℕ) (hy : 3 ≤ ny) :
    (jKyBase ny nz).length = 3 * (ny*nz) := by
  obtain ⟨k, rfl⟩ : ∃ k, ny = k + 3 := ⟨ny - 3, by omega⟩
  have hstep : ∀ a : ℕ, (arange (a*nz) ((a+1)*nz)).length = nz := by
    intro a
    rw [arange_length, Nat.succ_mul, Nat.add_sub_cancel_left]
  unfold jKyBase
  rw [List.length_append, List.length_append]
  rw [interleave3_length _ _ _ nz (by simpa using hstep 0)
    (by simpa using hstep 1) (by simpa using hstep 2)]
  rw [interleave3_length _ _ _ nz (by simpa using hstep k)
    (by simpa using hstep (k+1)) (by simpa using hstep (k+2))]
  have hmid : ∀ j ∈ List.range' 1 (k+3-2),
      (interleave3 (arange ((j-1)*nz) (j*nz)) (arange (j*nz) ((j+1)*nz))
        (arange ((j+1)*nz) ((j+2)*nz))).length = 3 * nz := by
    intro j hj
    have h1 : 1 ≤ j := (List.mem_range'_1.mp hj).1
    obtain ⟨a, rfl⟩ : ∃ a, j = a + 1 := ⟨j - 1, by omega⟩
    refine interleave3_length _ _ _ nz ?_ ?_ ?_
    · simpa using hstep a
    · simpa using hstep (a+1)
    · simpa using hstep (a+2)
  rw [List.length_flatMap]
  simp only [Function.comp_def]
  rw [List.map_congr_left hmid, sum_map_const_nat]
  simp only [List.length_range']
  have h2 : k + 3 - 2 = k + 1 := by omega
  rw [h2]
  ring

theorem jKy_length (nx ny nz : ℕ) (hx : 1 ≤ nx) (hy : 3 ≤ ny) :
    (jKy nx ny nz).length = 3 * (nx*ny*nz) := by
  obtain ⟨k, rfl⟩ : ∃ k, nx = k + 1 := ⟨nx - 1, by omega⟩
  unfold jKy
  rw [List.length_append, shiftBlocks_length, jKyBase_length ny nz hy]
  have h2 : k + 1 - 1 = k := by omega
  rw [h2]
  ring

theorem jKzBase_length (nz : ℕ) (hz : 3 ≤ nz) :
    (jKzBase nz).length = 3 * nz := by
  obtain ⟨k, rfl⟩ : ∃ k, nz = k + 3 := ⟨nz - 3, by omega⟩
  unfold jKzBase
  rw [List.length_append, List.length_append, shiftBlocks_length,
    List.length_map, arange_length]
  omega

theorem jKzBase2_length (ny nz : ℕ) (hy : 1 ≤ ny) (hz : 3 ≤ nz) :
    (jKzBase2 ny nz).length = 3 * (ny*nz) := by
  obtain ⟨k, rfl⟩ : ∃ k, ny = k + 1 := ⟨ny - 1, by omega⟩
  unfold jKzBase2
  rw [List.length_append, shiftBlocks_length, jKzBase_length nz hz]
  have h2 : k + 1 - 1 = k := by omega
  rw [h2]
  ring

theorem jKz_length (nx ny nz : ℕ) (hx : 1 ≤ nx) (hy : 1 ≤ ny) (hz : 3 ≤ nz) :
    (jKz nx ny nz).length = 3 * (nx*ny*nz) := by
  obtain ⟨k, rfl⟩ : ∃ k, nx = k + 1 := ⟨nx - 1, by omega⟩
  unfold jKz
  rw [List.length_append, shiftBlocks_length, jKzBase2_length ny nz hy hz]
  have h2 : k + 1 - 1 = k := by omega
  rw [h2]
  ring

/-- C9: for every grid with at least three nodes per axis and every
spatially constant vector `V` (`V[n] = c` at all nodes), the products
`Kx @ V`, `Ky @ V`, `Kz @ V` of the smoothing matrices built by
`Grid3D.computeK` are zero in every row: each row carries exactly the
stencil values `(1, -2, 1)/dx²`, which sum to zero. -/
theorem C9_computeK_annihilates_const (nx ny nz : ℕ) (dx c : ℚ) (V : ℕ → ℚ)
    (hx : 3 ≤ nx) (hy : 3 ≤ ny) (hz : 3 ≤ nz) (hV : ∀ k, V k = c) (i : ℕ) :
    cooMatVecRow (KxTriplets nx ny nz dx) V i = 0 ∧
    cooMatVecRow (KyTriplets nx ny nz dx) V i = 0 ∧
    cooMatVecRow (KzTriplets nx ny nz dx) V i = 0 := by
  refine ⟨?_, ?_, ?_⟩
  · exact cooMatVecRow_stencil_const dx c V hV (List.range (nx*ny*nz))
      (jKx nx ny nz)
      (by rw [jKx_length nx ny nz hx, List.length_range]) i
  · exact cooMatVecRow_stencil_const dx c V hV (List.range (nx*ny*nz))
      (jKy nx ny nz)
      (by rw [jKy_length nx ny nz (by omega) hy, List.length_range]) i
  · exact cooMatVecRow_stencil_const dx c V hV (List.range (nx*ny*nz))
      (jKz nx ny nz)
      (by rw [jKz_length nx ny nz (by omega) (by omega) hz, List.length_range]) i

/-- Witness for `C9_computeK_annihilates_const` on a `3×3×3` unit grid with
the constant field `V = 7`. -/
theorem C9_computeK_annihilates_const_witness :
    cooMatVecRow (KxTriplets 3 3 3 1) (fun _ => (7:ℚ)) 0 = 0 ∧
    cooMatVecRow (KyTriplets 3 3 3 1) (fun _ => (7:ℚ)) 0 = 0 ∧
    cooMatVecRow (KzTriplets 3 3 3 1) (fun _ => (7:ℚ)) 0 = 0 :=
  C9_computeK_annihilates_const 3 3 3 1 7 (fun _ => (7:ℚ))
    (by norm_num) (by norm_num) (by norm_num) (fun _ => rfl) 0

/-! ## C7 : S tie points must be collocated with P tie points in ratio mode

`jointHypoVelPS` lines 1121-1132: with `invert_VsVp` enabled and tie points
present, each S-phase tie point is compared against the P-phase tie points;
the first P point at Euclidean distance `< 0.00001` supplies the ratio
`Vpts2[i,0] = Vpts[i,0]/Vpts[ii,0]` (the `break`); if the inner loop falls
through (`for ... else`), a `ValueError` is raised.  The source computes
`d = np.sqrt(np.sum((Vpts2[i,1:4] - Vpts[ii,1:4])**2))` and tests
`d < 0.00001`; squaring both (nonnegative) sides gives the equivalent
rational test `d² < 1e-10` used here.  `Vpts2` is a copy whose coordinate
columns are never modified, so comparing against the original coordinates
is exact. -/

/-- A velocity tie point `(v, x, y, z)` (one row of `Vpts`, phase column
split off by the `np.nonzero(Vpts[:,4]==...)` selections). -/
structure VPt where
  v : ℚ
  x : ℚ
  y : ℚ
  z : ℚ

/-- Squared distance `np.sum((a[1:4]-b[1:4])**2)` between tie points. -/
def tieDist2 (a b : VPt) : ℚ := (a.x-b.x)^2 + (a.y-b.y)^2 + (a.z-b.z)^2

/-- The collocation test of hypo.py line 1128, `d < 0.00001`, with both
sides squared. -/
def tieCollocated (a b : VPt) : Bool := decide (tieDist2 a b < 1/10000000000)

/-- The tie-point preprocessing loop of `jointHypoVelPS` lines 1125-1132:
for each S tie point in order, the first collocated P tie point (inner loop
in order, `break` on success) supplies the replacement value `s.v / p.v`;
a fall-through raises `ValueError`.  Returns the replaced S values. -/
def processVsTies (pPts : List VPt) : List VPt → Except String (List ℚ)
  | [] => .ok []
  | s :: rest =>
      match pPts.find? (fun p => tieCollocated s p) with
      | none => .error "Missing Vp data point for Vs data point"
      | some p =>
          match processVsTies pPts rest with
          | .error e => .error e
          | .ok l => .ok (s.v / p.v :: l)

/-- C7: the tie-point preprocessing of the ratio-parameterized two-phase
solver fails with the invalid-tie-point `ValueError` if and only if some S
tie point has no P tie point within distance `1e-5`; on success every S
tie-point value is replaced by the ratio `Vs/Vp` of a collocated P point. -/
theorem C7_vs_tie_collocation (pPts sPts : List VPt) :
    ((∃ e, processVsTies pPts sPts = .error e) ↔
      ∃ s ∈ sPts, ∀ p ∈ pPts, ¬ (tieDist2 s p < 1/10000000000)) ∧
    (∀ l, processVsTies pPts sPts = .ok l →
      l.length = sPts.length ∧
      ∀ i (hi : i < sPts.length) (hl : i < l.length),
        ∃ p ∈ pPts, tieDist2 (sPts.get ⟨i, hi⟩) p < 1/10000000000 ∧
          l.get ⟨i, hl⟩ = (sPts.get ⟨i, hi⟩).v / p.v) := by
  induction sPts with
  | nil =>
      constructor
      · simp [processVsTies]
      · intro l hl
        simp [processVsTies] at hl
        subst hl
        simp
  | cons s rest ih =>
      cases hf : pPts.find? (fun p => tieCollocated s p) with
      | none =>
          have hnone : ∀ p ∈ pPts, ¬ (tieDist2 s p < 1/10000000000) := by
            intro p hp
            have := List.find?_eq_none.mp hf p hp
            simpa [tieCollocated] using this
          constructor
          · constructor
            · intro _
              exact ⟨s, List.mem_cons_self _ _, hnone⟩
            · intro _
              exact ⟨"Missing Vp data point for Vs data point", by
                simp [processVsTies, hf]⟩
          · intro l hl
            simp [processVsTies, hf] at hl
      | some p =>
          have hpmem : p ∈ pPts := List.mem_of_find?_eq_some hf
          have hpcol : tieDist2 s p < 1/10000000000 := by
            have := List.find?_some hf
            simpa [tieCollocated] using this
          cases hrest : processVsTies pPts rest with
          | error e =>
              constructor
              · constructor
                · intro _
                  obtain ⟨s', hs', hall⟩ := ih.1.mp ⟨e, hrest⟩
                  exact ⟨s', List.mem_cons_of_mem _ hs', hall⟩
                · intro _
                  exact ⟨e, by simp [processVsTies, hf, hrest]⟩
              · intro l hl
                simp [processVsTies, hf, hrest] at hl
          | ok l0 =>
              constructor
              · constructor
                · rintro ⟨e, he⟩
                  simp [processVsTies, hf, hrest] at he
                · rintro ⟨s', hs', hall⟩
                  rcases List.mem_cons.mp hs' with h | h
                  · subst h
                    exact absurd hpcol (hall p hpmem)
                  · obtain ⟨e, he⟩ := ih.1.mpr ⟨s', h, hall⟩
                    rw [hrest] at he
                    exact Except.noConfusion he
              · intro l hl
                simp only [processVsTies, hf, hrest] at hl
                have hl' : s.v / p.v :: l0 = l := by
                  simpa using hl
                subst hl'
                obtain ⟨hlen, hval⟩ := ih.2 l0 hrest
                refine ⟨by simp [hlen], ?_⟩
                intro i hi hl2
                cases i with
                | zero => exact ⟨p, hpmem, hpcol, by simp⟩
                | succ i' =>
                    have hi' : i' < rest.length := by
                      simpa using hi
                    have hl2' : i' < l0.length := by
                      simpa using hl2
                    obtain ⟨q, hq, hqd, hqv⟩ := hval i' hi' hl2'
                    exact ⟨q, hq, by simpa using hqd, by simpa using hqv⟩

/-- Witness for `C7_vs_tie_collocation`: one P tie point `(4000, 100,100,1)`
and one exactly collocated S tie point `(2000, 100,100,1)` give the ratio
`1/2`; moving the S point to `(2000, 999,0,0)` triggers the error. -/
theorem C7_vs_tie_collocation_witness :
    (∃ p ∈ [VPt.mk 4000 100 100 1],
      tieDist2 (VPt.mk 2000 100 100 1) p < 1/10000000000 ∧
      (1:ℚ)/2 = (VPt.mk 2000 100 100 1).v / p.v) ∧
    (∃ e, processVsTies [VPt.mk 4000 100 100 1]
      [VPt.mk 2000 999 0 0] = .error e) := by
  constructor
  · have hok : processVsTies [VPt.mk 4000 100 100 1]
        [VPt.mk 2000 100 100 1] = .ok [(1:ℚ)/2] := by
      norm_num [processVsTies, List.find?, tieCollocated, tieDist2]
    have h := ((C7_vs_tie_collocation [VPt.mk 4000 100 100 1]
      [VPt.mk 2000 100 100 1]).2 [(1:ℚ)/2] hok).2 0 (by norm_num) (by norm_num)
    simpa using h
  · refine (C7_vs_tie_collocation [VPt.mk 4000 100 100 1]
      [VPt.mk 2000 999 0 0]).1.mpr ⟨VPt.mk 2000 999 0 0, by simp, ?_⟩
    intro p hp
    simp only [List.mem_singleton] at hp
    subst hp
    norm_num [tieDist2]

/-! ## C1 : row layout of the two-phase all-parameter Jacobian in `_relocPS`

`_relocPS` lines 1583-1612: `H = np.ones((nstp+nsts, 4))`; the P loop
(lines 1591-1599) writes columns 1..3 of row `ns` for `ns < nstp`; the S
loop (lines 1600-1608) then writes `H[ns,1], H[ns,2], H[ns,3]` for
`ns < nsts` — row `ns` again, not row `nstp+ns` (contrast the two-step loop
of the same function, lines 1538-1539, which writes `H[ns+nstp,...]`, and
the residual at line 1610 which stacks the S rows after the P rows).  So
the S derivatives overwrite the P rows and rows `nstp..nstp+nsts-1` keep
the `np.ones` initialization in columns 1..3. -/

/-- Per-observation raytracer output used by the relocators: the
initial-segment velocity `V0 = v0[ns]` and the departure direction
`d = rays[ns][1] - hyp0[indh,2:]` with its Euclidean norm
`ds = np.sqrt(np.sum(d*d))`.  `V0` and `d` come from the external
`cgrid3d` raytracer; `ds` is carried as a field because the square root is
irrational over `ℚ` in general — its defining property is asserted at the
concrete inputs of the theorem below. -/
structure RayObs where
  V0 : ℚ
  d1 : ℚ
  d2 : ℚ
  d3 : ℚ
  ds : ℚ

/-- Columns 1..3 of one Jacobian row (hypo.py lines 1597-1599 and
1606-1608): `(-1/V0 * d[0]/ds, -1/V0 * d[1]/ds, -1/V0 * d[2]/ds)`. -/
def hRow3 (o : RayObs) : ℚ × ℚ × ℚ :=
  (-1/o.V0 * o.d1/o.ds, -1/o.V0 * o.d2/o.ds, -1/o.V0 * o.d3/o.ds)

/-- Overwrite columns 1..3 of row `r` of `H`; column 0 keeps its value
(the `np.ones` initialization provides the `t0` column). -/
def setHRow (H : ℕ → Fin 4 → ℚ) (r : ℕ) (w : ℚ × ℚ × ℚ) : ℕ → Fin 4 → ℚ :=
  fun i j =>
    if i = r then
      if j = 1 then w.1 else if j = 2 then w.2.1 else if j = 3 then w.2.2
      else H i j
    else H i j

/-- A `for ns in range(len(obs))` loop writing the derivative columns of
row `base + ns` for each observation. -/
def fillHRows (base : ℕ) : List RayObs → (ℕ → Fin 4 → ℚ) → (ℕ → Fin 4 → ℚ)
  | [], H => H
  | o :: os, H => fillHRows (base+1) os (setHRow H base (hRow3 o))

/-- The Jacobian of the all-parameter step of `_relocPS` as the source
builds it (lines 1583-1608): `np.ones`, then the P loop over rows
`0..nstp-1`, then the S loop over rows `0..nsts-1` (the source indexes
`H[ns,...]` in the S loop). -/
def relocPS_H (pObs sObs : List RayObs) : ℕ → Fin 4 → ℚ :=
  fillHRows 0 sObs (fillHRows 0 pObs (fun _ _ => 1))

/-- Modelled from the spec (§4.3 two-phase all-parameter step, and claim
C1): the S-wave observation `ns` occupies row `nstp + ns`, as in the
two-step loop of the same function (lines 1538-1539). -/
def relocPS_H_fromSpec (pObs sObs : List RayObs) : ℕ → Fin 4 → ℚ :=
  fillHRows pObs.length sObs (fillHRows 0 pObs (fun _ _ => 1))

/-- `_relocPS` line 1610: the residual stacks
`(tobs_P - tcalc_P)` then `(tobs_S - tcalc_S)`. -/
def relocPS_res (tobsP tcalcP tobsS tcalcS : List ℚ) : List ℚ :=
  tobsP.zipWith (· - ·) tcalcP ++ tobsS.zipWith (· - ·) tcalcS

/-- C1, divergence at a concrete failing input.  One P observation with
direction `(1,0,0)` and one S observation with direction `(0,1,0)`, both
with `V0 = 1`, `ds = 1` (the stated `ds*ds = d·d` conjuncts check the norm
field against its source definition).  Per the claim (and the spec), row
`nstp + 0 = 1` should carry the S derivatives `(0, -1, 0)`; in the code row
1 keeps the `np.ones` value `1` in all of columns 1..3, and the S loop
instead overwrites row 0, clobbering the P derivatives.  The residual
stacking, by contrast, is exactly as claimed. -/
theorem C1_relocPS_H_row_bug :
    let p : RayObs := ⟨1, 1, 0, 0, 1⟩
    let s : RayObs := ⟨1, 0, 1, 0, 1⟩
    (p.ds * p.ds = p.d1*p.d1 + p.d2*p.d2 + p.d3*p.d3 ∧ 0 ≤ p.ds) ∧
    (s.ds * s.ds = s.d1*s.d1 + s.d2*s.d2 + s.d3*s.d3 ∧ 0 ≤ s.ds) ∧
    relocPS_H_fromSpec [p] [s] 1 2 = -1 ∧
    relocPS_H_fromSpec [p] [s] 0 1 = -1 ∧
    relocPS_H [p] [s] 1 0 = 1 ∧ relocPS_H [p] [s] 1 1 = 1 ∧
    relocPS_H [p] [s] 1 2 = 1 ∧ relocPS_H [p] [s] 1 3 = 1 ∧
    relocPS_H [p] [s] 0 1 = 0 ∧ relocPS_H [p] [s] 0 2 = -1 ∧
    relocPS_H [p] [s] 1 2 ≠ relocPS_H_fromSpec [p] [s] 1 2 ∧
    relocPS_res [10] [4] [20] [5] = [6, 15] := by
  refine ⟨⟨by norm_num, by norm_num⟩, ⟨by norm_num, by norm_num⟩, ?_⟩
  norm_num [relocPS_H, relocPS_H_fromSpec, fillHRows, setHRow, hRow3,
    relocPS_res, List.zipWith, Fin.ext_iff]

/-! ## C2 : the solve step of `hypoloc` / `hypolocPS` on singular systems

`hypoloc` lines 83-92 (and identically `hypolocPS` lines 183-192):

    dh = np.linalg.solve(np.dot(H.T, H), np.dot(H.T, r))
    if not np.all(np.isfinite(dh)):
        try:
            U,S,VVh = np.linalg.svd(np.dot(H.T, H)+1e-9*np.eye(4)) ...
        except np.linalg.linalg.LinAlgError:
            ... skipping ... break

`np.linalg.solve` raises `LinAlgError` when LAPACK gesv meets an exactly
zero pivot — in exact arithmetic, when `HᵀH` is singular.  That call is not
inside any `try`, so the exception propagates out of the function; the
`isfinite` fallback only triggers when `solve` returns (with inf/nan
entries, a float artifact that cannot occur over `ℚ`), and the event is
skipped only when `np.linalg.svd` itself raises.  The SVD pseudo-inverse
computation is irrational over `ℚ` and numpy-internal; it enters the model
as an opaque function parameter (the theorem below holds for every choice). -/

abbrev Vec4 := Fin 4 → ℚ

abbrev Mat4 := Matrix (Fin 4) (Fin 4) ℚ

/-- `np.dot(H.T, H)` for a row-list `H`: entry `(i,j)` is `Σ_s H[s,i]*H[s,j]`. -/
def gramHtH (H : List Vec4) : Mat4 :=
  Matrix.of fun i j => (H.map fun row => row i * row j).sum

/-- `np.dot(H.T, r)`: entry `i` is `Σ_s H[s,i]*r[s]`. -/
def HtVec (H : List Vec4) (r : List ℚ) : Vec4 :=
  fun i => ((H.zip r).map fun p => p.1 i * p.2).sum

/-- `np.linalg.solve(A, b)`: raises `LinAlgError` on an exactly singular
matrix (LAPACK gesv zero pivot, i.e. `det A = 0` in exact arithmetic),
otherwise returns the unique solution (written via Cramer). -/
def npSolve (A : Mat4) (b : Vec4) : Except String Vec4 :=
  if A.det = 0 then .error "numpy.linalg.LinAlgError: Singular matrix"
  else .ok fun i => (A.updateColumn i b).det / A.det

/-- `np.isfinite` on an exact rational: always true (`ℚ` has no inf/nan). -/
def npIsFinite (_ : ℚ) : Bool := true

/-- Outcome of one Gauss-Newton solve step of `hypoloc`: a usable update,
a skipped event (the caught-SVD-failure `break`), or an uncaught exception. -/
inductive SolveOutcome where
  | ok (dh : Vec4)
  | skip
  | raised (msg : String)

/-- `hypoloc` lines 83-92 / `hypolocPS` lines 183-192.  `svdFallback`
abstracts the numpy-internal SVD pseudo-inverse applied to
`HᵀH + 1e-9*np.eye(4)` and `Hᵀr` (`.error` = `np.linalg.svd` raised
`LinAlgError`, the only exception the source catches). -/
def hypolocSolveBlock (svdFallback : Mat4 → Vec4 → Except String Vec4)
    (H : List Vec4) (r : List ℚ) : SolveOutcome :=
  match npSolve (gramHtH H) (HtVec H r) with
  | .error msg => .raised msg
  | .ok dh =>
      if ∀ i, npIsFinite (dh i) then .ok dh
      else
        match svdFallback (gramHtH H + (1/1000000000) • (1 : Mat4)) (HtVec H r) with
        | .ok dh2 => .ok dh2
        | .error _ => .skip

/-- `hypoloc` lines 68-77: the Jacobian rows `[1, -1/V*dx/ds, -1/V*dy/ds,
-1/V*dz/ds]` from receiver coordinates `xrcv`, current source position
`xinit` and constant velocity `V`.  The norms `ds` are supplied as the
parallel list `dss` (`ds = np.sqrt(dx*dx+dy*dy+dz*dz)` is irrational over
`ℚ` in general; the theorem below checks the defining property at its
concrete input). -/
def hypolocH (xrcv : List (ℚ × ℚ × ℚ)) (dss : List ℚ) (xinit : ℚ × ℚ × ℚ)
    (V : ℚ) : List Vec4 :=
  (xrcv.zip dss).map fun p => fun j =>
    if j = 0 then 1
    else if j = 1 then -1/V * (p.1.1 - xinit.1) / p.2
    else if j = 2 then -1/V * (p.1.2.1 - xinit.2.1) / p.2
    else -1/V * (p.1.2.2 - xinit.2.2) / p.2

/-- `hypoloc` lines 72, 79: residuals `r = t - (tinit + ds/V)`. -/
def hypolocResid (t dss : List ℚ) (tinit V : ℚ) : List ℚ :=
  (t.zip dss).map fun p => p.1 - (tinit + p.2 / V)

/-- C2, failing input.  Four observations of one event, all at receiver
`(1,0,0)`, source guess at the origin, `V = 1`: every Jacobian row is
`[1,-1,0,0]` (each `ds = 1` satisfies `ds² = dx²+dy²+dz²` exactly), so
`HᵀH` is singular and `np.linalg.solve` raises `LinAlgError`; the
exception escapes the solve step uncaught — the event is not skipped and
no SVD fallback runs, for every possible behaviour of the SVD routine.
This contradicts the claim that a singular normal system falls back to the
SVD pseudo-inverse or skips the event. -/
theorem C2_singular_solve_raises :
    ∀ svdFallback : Mat4 → Vec4 → Except String Vec4,
    let xrcv : List (ℚ × ℚ × ℚ) := [(1,0,0), (1,0,0), (1,0,0), (1,0,0)]
    let dss : List ℚ := [1, 1, 1, 1]
    let H := hypolocH xrcv dss (0,0,0) 1
    ((1:ℚ) * 1 = (1-0)*(1-0) + (0-0)*(0-0) + (0-0)*(0-0)) ∧
    H = List.replicate 4 (fun j => if j = 0 then 1 else if j = 1 then -1 else 0) ∧
    (gramHtH H).det = 0 ∧
    hypolocSolveBlock svdFallback H (hypolocResid [2,2,2,2] dss 0 1)
      = .raised "numpy.linalg.LinAlgError: Singular matrix" := by
  intro svdFallback
  have hrow : hypolocH [((1:ℚ),(0:ℚ),(0:ℚ)), (1,0,0), (1,0,0), (1,0,0)]
      [1,1,1,1] (0,0,0) 1
      = List.replicate 4 (fun j => if j = 0 then 1 else if j = 1 then -1 else 0) := by
    simp only [hypolocH, List.zip, List.zipWith, List.map, List.replicate]
    norm_num
  refine ⟨by norm_num, hrow, ?_, ?_⟩
  · rw [hrow]
    have hA : gramHtH (List.replicate 4
        (fun j => if j = 0 then 1 else if j = 1 then -1 else (0:ℚ)))
        = Matrix.of fun i j =>
            (if i = 0 then (4:ℚ) else if i = 1 then -4 else 0) *
            (if j = 0 then 1 else if j = 1 then -1 else 0) := by
      ext i j
      fin_cases i <;> fin_cases j <;>
        norm_num [gramHtH, List.replicate, Fin.ext_iff]
    rw [hA]
    simp [Matrix.det_succ_row_zero, Fin.sum_univ_succ, Fin.ext_iff]
  · rw [hrow]
    unfold hypolocSolveBlock
    have hA : (gramHtH (List.replicate 4
        (fun j => if j = 0 then 1 else if j = 1 then -1 else (0:ℚ)))).det = 0 := by
      have hA2 : gramHtH (List.replicate 4
          (fun j => if j = 0 then 1 else if j = 1 then -1 else (0:ℚ)))
          = Matrix.of fun i j =>
              (if i = 0 then (4:ℚ) else if i = 1 then -4 else 0) *
              (if j = 0 then 1 else if j = 1 then -1 else 0) := by
        ext i j
        fin_cases i <;> fin_cases j <;>
          norm_num [gramHtH, List.replicate, Fin.ext_iff]
      rw [hA2]
      simp [Matrix.det_succ_row_zero, Fin.sum_univ_succ, Fin.ext_iff]
    rw [npSolve, if_pos hA]

/-! ## C5 : the receiver-calibration buffer of `jointHypoVelPS`

`jointHypoVel` (single-phase) allocates
`rcv_cal = np.empty((caldata.shape[0],3))` at line 534 before the loops at
lines 536-540 fill it row by row.  `jointHypoVelPS` (lines 1056-1072)
contains the same filling loop (`rcv_cal[i,:] = rcv[...]`, line 1067) but
no allocation: `rcv_cal` is not bound anywhere in the function, so when
the module is imported and `jointHypoVelPS` is called with non-empty
`caldata`, the element assignment raises `NameError` (a Python subscript
assignment does not bind the name; it requires an existing object).  The
embedding models the statements that touch `rcv_cal` as actions on a frame
of bound array names. -/

/-- A Python frame: array names currently bound, with allocated row counts. -/
abbrev PyEnv := List (String × ℕ)

/-- A numpy element assignment `name[i,:] = ...`: resolves `name` in the
frame and mutates the existing array; an unbound name raises `NameError`. -/
def pySetRow (env : PyEnv) (name : String) (_ : ℕ) : Except String PyEnv :=
  match env.lookup name with
  | some _ => .ok env
  | none => .error ("NameError: name " ++ name ++ " is not defined")

/-- Calibration preprocessing of `jointHypoVel` restricted to the
statements touching `rcv_cal` (lines 529-545): the allocation at line 534
binds the name, then the shot-by-shot loops visit every row of `caldata`
once with `rcv_cal[i,:] = rcv[int(1.e-6+caldata[i,2])]`. -/
def jointHypoVel_calPrep (nrows : ℕ) (env0 : PyEnv) : Except String PyEnv :=
  (List.range nrows).foldlM (fun e i => pySetRow e "rcv_cal" i)
    (("rcv_cal", nrows) :: env0)

/-- Calibration preprocessing of `jointHypoVelPS` restricted to the
statements touching `rcv_cal` (lines 1056-1072): the same filling loop,
with no allocation statement in the function. -/
def jointHypoVelPS_calPrep (nrows : ℕ) (env0 : PyEnv) : Except String PyEnv :=
  (List.range nrows).foldlM (fun e i => pySetRow e "rcv_cal" i) env0

/-- C5: with non-empty calibration data and no binding of `rcv_cal` in the
surrounding scope (the situation of every caller that imports the module),
the two-phase preprocessing raises `NameError` at its first loop
iteration, while the single-phase preprocessing, whose allocation precedes
the loop, completes normally. -/
theorem C5_rcv_cal_unallocated (nrows : ℕ) (env0 : PyEnv)
    (h1 : 1 ≤ nrows) (h0 : env0.lookup "rcv_cal" = none) :
    jointHypoVelPS_calPrep nrows env0
      = .error "NameError: name rcv_cal is not defined" ∧
    jointHypoVel_calPrep nrows env0 = .ok (("rcv_cal", nrows) :: env0) := by
  constructor
  · obtain ⟨k, rfl⟩ : ∃ k, nrows = k + 1 := ⟨nrows - 1, by omega⟩
    unfold jointHypoVelPS_calPrep
    rw [List.range_succ_eq_map]
    simp only [List.foldlM_cons, pySetRow, h0]
    rfl
  · unfold jointHypoVel_calPrep
    have hgen : ∀ (l : List ℕ),
        l.foldlM (fun e i => pySetRow e "rcv_cal" i) (("rcv_cal", nrows) :: env0)
          = .ok (("rcv_cal", nrows) :: env0) := by
      intro l
      induction l with
      | nil => rfl
      | cons a as ih =>
          rw [List.foldlM_cons]
          have hstep : pySetRow (("rcv_cal", nrows) :: env0) "rcv_cal" a
              = .ok (("rcv_cal", nrows) :: env0) := by
            simp [pySetRow, List.lookup]
          rw [hstep]
          exact ih
    exact hgen _

/-- Witness for `C5_rcv_cal_unallocated`: one calibration row, empty
surrounding frame. -/
theorem C5_rcv_cal_unallocated_witness :
    jointHypoVelPS_calPrep 1 []
      = .error "NameError: name rcv_cal is not defined" ∧
    jointHypoVel_calPrep 1 [] = .ok [("rcv_cal", 1)] :=
  C5_rcv_cal_unallocated 1 [] (by norm_num) rfl

/-! ## C10 : the locators return a fresh table with the ID column intact

Both locators start with `loc = hinit.copy()` (`hypoloc` line 46,
`hypolocPS` line 140) — the argument array is never written again, the
embedding of the working copy is a pure value derived from `hinit` — and
the only statement that ever writes the table is `loc[inh,1:] += dh`
(`hypoloc` line 94, `hypolocPS` line 194), which updates columns 1..4 of
the rows selected by `inh = eid==loc[:,0]` and leaves column 0 alone.  The
update vectors `dh` come from the per-iteration solves; their values do
not affect which cells are written, so the write trace is quantified over
every finite sequence of `(eid, dh)` pairs. -/

/-- A hypocenter table row `(evID, (t0, x, y, z))`. -/
abbrev HypoRow := ℚ × Hyp4

/-- `loc[inh,1:] += dh` with `inh = eid==loc[:,0]` (hypoloc line 94,
hypolocPS line 194): add `dh` to columns 1..4 of every row whose ID column
equals `eid`. -/
def hypolocApplyDh (loc : List HypoRow) (eid : ℚ) (dh : Hyp4) : List HypoRow :=
  loc.map fun row => if row.1 = eid then (row.1, hypAdd row.2 dh) else row

/-- The full write trace of `hypoloc` / `hypolocPS` on the working copy:
the nested per-event Gauss-Newton loops execute a finite sequence of
`loc[inh,1:] += dh` statements, listed in execution order in `upds`. -/
def hypolocWrites (hinit : List HypoRow) (upds : List (ℚ × Hyp4)) : List HypoRow :=
  upds.foldl (fun loc u => hypolocApplyDh loc u.1 u.2) hinit

theorem hypolocApplyDh_fst (loc : List HypoRow) (eid : ℚ) (dh : Hyp4) :
    (hypolocApplyDh loc eid dh).map Prod.fst = loc.map Prod.fst := by
  unfold hypolocApplyDh
  rw [List.map_map]
  refine List.map_congr_left ?_
  intro row _
  by_cases h : row.1 = eid <;> simp [h]

/-- C10: for every initial table and every sequence of inner-iteration
updates, the table produced by the locators' write trace has the same
length as `hinit` and an identical ID column (column 0); every update
touches only columns 1..4.  The argument `hinit` itself is a value the
computation only reads — the result is built from the copy. -/
theorem C10_id_column_preserved (hinit : List HypoRow)
    (upds : List (ℚ × Hyp4)) :
    (hypolocWrites hinit upds).map Prod.fst = hinit.map Prod.fst ∧
    (hypolocWrites hinit upds).length = hinit.length := by
  suffices h : (hypolocWrites hinit upds).map Prod.fst = hinit.map Prod.fst by
    refine ⟨h, ?_⟩
    have := congrArg List.length h
    simpa using this
  unfold hypolocWrites
  induction upds generalizing hinit with
  | nil => rfl
  | cons u rest ih =>
      rw [List.foldl_cons]
      rw [ih (hypolocApplyDh hinit u.1 u.2)]
      exact hypolocApplyDh_fst hinit u.1 u.2

/-! ## C6 : adaptive regularization weights and normal-equation assembly

`jointHypoVel` lines 734-761 and `jointHypoVelPS` lines 1372-1399 compute
`nM = ‖M1ᵀM1‖`, `nP = ‖dP1ᵀdP1‖`, `nD = ‖D1ᵀD1‖` (and `nK = ‖KtKx‖`
earlier) with `scipy.sparse.linalg.norm` (Frobenius); the norms are
irrational over `ℚ` and enter the embedding as scalar inputs.  The weights
and the assembled matrix are embedded exactly as the source writes them:

    lmbda = par.lmbda * nM / nK
    gamma = par.gamma * nM / nP   (if nP != 0.0, else par.gamma)
    A = tmp1 + lmbda*KtKx + lmbda*KtKy + par.wzK*lmbda*KtKz
        + gamma*tmp3 + tmp4
    alpha = par.alpha * nM / nD ; A += alpha * tmp5   (when tie points)

with `tmp1 = M1.T*M1`, `tmp3 = dP1.T*dP1`, `tmp4 = u1*u1.T`,
`tmp5 = D1.T*D1`. -/

/-- `lmbda = par.lmbda * nM / nK` (hypo.py line 740 / 1378). -/
def lmbdaWeight (par_lmbda nM nK : ℚ) : ℚ := par_lmbda * nM / nK

/-- `gamma = par.gamma * nM / nP if nP != 0.0 else par.gamma`
(hypo.py lines 741-744 / 1379-1382). -/
def gammaWeight (par_gamma nM nP : ℚ) : ℚ :=
  if nP ≠ 0 then par_gamma * nM / nP else par_gamma

/-- `alpha = par.alpha * nM / nD` (hypo.py line 759 / 1397). -/
def alphaWeight (par_alpha nM nD : ℚ) : ℚ := par_alpha * nM / nD

/-- The normal-equation matrix as assembled at hypo.py line 746 / 1384:
`A = M1ᵀM1 + lmbda*KtKx + lmbda*KtKy + wzK*lmbda*KtKz + gamma*dP1ᵀdP1
+ u1*u1ᵀ`. -/
def assembleA {r p m : ℕ} (M1 : Matrix (Fin r) (Fin m) ℚ)
    (KtKx KtKy KtKz : Matrix (Fin m) (Fin m) ℚ)
    (dP1 : Matrix (Fin p) (Fin m) ℚ) (u1 : Matrix (Fin m) (Fin 1) ℚ)
    (lmbda gamma wzK : ℚ) : Matrix (Fin m) (Fin m) ℚ :=
  M1.transpose * M1 + lmbda • KtKx + lmbda • KtKy + (wzK * lmbda) • KtKz
    + gamma • (dP1.transpose * dP1) + u1 * u1.transpose

/-- The tie-point augmentation `A += alpha * (D1.T*D1)`
(hypo.py lines 756-760 / 1394-1398). -/
def assembleATie {r p q m : ℕ} (M1 : Matrix (Fin r) (Fin m) ℚ)
    (KtKx KtKy KtKz : Matrix (Fin m) (Fin m) ℚ)
    (dP1 : Matrix (Fin p) (Fin m) ℚ) (u1 : Matrix (Fin m) (Fin 1) ℚ)
    (D1 : Matrix (Fin q) (Fin m) ℚ)
    (lmbda gamma wzK alpha : ℚ) : Matrix (Fin m) (Fin m) ℚ :=
  assembleA M1 KtKx KtKy KtKz dP1 u1 lmbda gamma wzK
    + alpha • (D1.transpose * D1)

/-- C6: the weights are rescaled exactly as claimed (`lambda`,
`alpha` multiplicatively by `nM/nK`, `nM/nD`; `gamma` by `nM/nP` with the
`par.gamma` fallback at `nP = 0`), and the assembled normal-equation
matrix equals the claimed factored form
`M1ᵀM1 + lambda*(KtKx + KtKy + wzK*KtKz) + gamma*dP1ᵀdP1 + u1*u1ᵀ`, plus
`alpha*D1ᵀD1` when tie points are present. -/
theorem C6_weights_and_assembly {r p q m : ℕ}
    (M1 : Matrix (Fin r) (Fin m) ℚ)
    (KtKx KtKy KtKz : Matrix (Fin m) (Fin m) ℚ)
    (dP1 : Matrix (Fin p) (Fin m) ℚ) (u1 : Matrix (Fin m) (Fin 1) ℚ)
    (D1 : Matrix (Fin q) (Fin m) ℚ)
    (par_lmbda par_gamma par_alpha nM nK nP nD wzK : ℚ) :
    lmbdaWeight par_lmbda nM nK = par_lmbda * nM / nK ∧
    gammaWeight par_gamma nM nP
      = (if nP = 0 then par_gamma else par_gamma * nM / nP) ∧
    alphaWeight par_alpha nM nD = par_alpha * nM / nD ∧
    (∀ lmbda gamma : ℚ,
      assembleA M1 KtKx KtKy KtKz dP1 u1 lmbda gamma wzK
        = M1.transpose * M1 + lmbda • (KtKx + KtKy + wzK • KtKz)
          + gamma • (dP1.transpose * dP1) + u1 * u1.transpose) ∧
    (∀ lmbda gamma alpha : ℚ,
      assembleATie M1 KtKx KtKy KtKz dP1 u1 D1 lmbda gamma wzK alpha
        = M1.transpose * M1 + lmbda • (KtKx + KtKy + wzK • KtKz)
          + gamma • (dP1.transpose * dP1) + u1 * u1.transpose
          + alpha • (D1.transpose * D1)) := by
  have hfac : ∀ lmbda : ℚ,
      lmbda • (KtKx + KtKy + wzK • KtKz)
        = lmbda • KtKx + lmbda • KtKy + (wzK * lmbda) • KtKz := by
    intro lmbda
    rw [smul_add, smul_add, smul_smul, mul_comm lmbda wzK]
  refine ⟨rfl, ?_, rfl, ?_, ?_⟩
  · by_cases h : nP = 0 <;> simp [gammaWeight, h]
  · intro lmbda gamma
    unfold assembleA
    rw [hfac]
    abel
  · intro lmbda gamma alpha
    unfold assembleATie assembleA
    rw [hfac]
    abel

/-! ## C8 : the trilinear interpolation rows of `Grid3D.computeD`

`Grid3D.computeD` (hypo.py lines 299-330) builds, for each query point, 8
triplets `(row, ind(i,j,k), weight)` over the corners of the cell selected
by `i1 = int(1.e-6 + (coord-x[0])/dx)`, `i2 = i1+1` (per axis), with
weights `(1-|px-x[i]|/dx)(1-|py-y[j]|/dx)(1-|pz-z[k]|/dx)`.  The grid axes
of the repository are built with `np.arange` (uniform nodes
`x[i] = x[0] + i*dx`); the embedding represents an axis by its origin,
node count and the common step `dx` of the cubic grid. -/

/-- The grid data `computeD` reads: axis origins `x[0], y[0], z[0]`, node
counts, and the cubic cell size `dx` (node `i` of the `x` axis at
`x0 + i*dx`). -/
structure DGrid where
  x0 : ℚ
  y0 : ℚ
  z0 : ℚ
  nx : ℕ
  ny : ℕ
  nz : ℕ
  dx : ℚ

/-- Node coordinate `self.x[i] = x0 + i*dx` of a regular axis. -/
def nodeX (g : DGrid) (i : ℕ) : ℚ := g.x0 + i * g.dx

/-- Node coordinate `self.y[j]`. -/
def nodeY (g : DGrid) (j : ℕ) : ℚ := g.y0 + j * g.dx

/-- Node coordinate `self.z[k]`. -/
def nodeZ (g : DGrid) (k : ℕ) : ℚ := g.z0 + k * g.dx

/-- `Grid3D.ind` (hypo.py lines 241-242): `(i*ny + j)*nz + k`. -/
def gridInd (g : DGrid) (i j k : ℕ) : ℕ := (i * g.ny + j) * g.nz + k

/-- `int(1.e-6 + q)` for the nonnegative arguments `computeD` feeds it
(truncation toward zero = floor there). -/
def npInt1e6 (q : ℚ) : ℕ := (Int.floor (1/1000000 + q)).toNat

/-- One factor triple of a `computeD` weight (hypo.py lines 325-327). -/
def dWeight (g : DGrid) (p : ℚ × ℚ × ℚ) (i j k : ℕ) : ℚ :=
  (1 - |p.1 - nodeX g i| / g.dx) * (1 - |p.2.1 - nodeY g j| / g.dx) *
    (1 - |p.2.2 - nodeZ g k| / g.dx)

/-- The row of `Grid3D.computeD` for query point `p` (hypo.py lines
312-328): the 8 stored `(column, value)` entries in the source's loop
order `for i in (i1,i2): for j in (j1,j2): for k in (k1,k2)`. -/
def computeDRow (g : DGrid) (p : ℚ × ℚ × ℚ) : List (ℕ × ℚ) :=
  let i1 := npInt1e6 ((p.1 - g.x0) / g.dx)
  let j1 := npInt1e6 ((p.2.1 - g.y0) / g.dx)
  let k1 := npInt1e6 ((p.2.2 - g.z0) / g.dx)
  [(i1, j1, k1), (i1, j1, k1+1), (i1, j1+1, k1), (i1, j1+1, k1+1),
   (i1+1, j1, k1), (i1+1, j1, k1+1), (i1+1, j1+1, k1), (i1+1, j1+1, k1+1)].map
    fun t => (gridInd g t.1 t.2.1 t.2.2, dWeight g p t.1 t.2.1 t.2.2)

/-- A point strictly inside the grid bounds (the claim's hypothesis). -/
def strictlyInside (g : DGrid) (p : ℚ × ℚ × ℚ) : Prop :=
  g.x0 < p.1 ∧ p.1 < nodeX g (g.nx - 1) ∧
  g.y0 < p.2.1 ∧ p.2.1 < nodeY g (g.ny - 1) ∧
  g.z0 < p.2.2 ∧ p.2.2 < nodeZ g (g.nz - 1)

/-- C8, counterexample.  On the regular grid `x = 0..3`, `y = z = 0..2`
(`dx = 1`): the point `(1,1,1)` is strictly inside but sits on a grid
node, so 7 of its 8 stored weights are exactly `0` — the row does not have
8 *non-zero* entries.  And the strictly interior point
`(2 - 1e-7, 1/2, 1/2)` falls in the `1e-6`-wide snap band below the plane
`x = 2`: `int(1e-6 + 1.9999999) = 2` selects the upper cell, making one
weight negative, and the row sum is `1 - 2e-7 ≠ 1`. -/
theorem C8_counterexample :
    let g : DGrid := ⟨0, 0, 0, 4, 3, 3, 1⟩
    let p1 : ℚ × ℚ × ℚ := (1, 1, 1)
    let p2 : ℚ × ℚ × ℚ := (2 - 1/10000000, 1/2, 1/2)
    strictlyInside g p1 ∧ strictlyInside g p2 ∧
    (computeDRow g p1).length = 8 ∧
    ((computeDRow g p1).filter (fun e => e.2 ≠ 0)).length = 1 ∧
    ((computeDRow g p2).map Prod.snd).sum = 1 - 1/5000000 ∧
    ¬ ((computeDRow g p2).map Prod.snd).sum = 1 := by
  refine ⟨?_, ?_, ?_, ?_, ?_, ?_⟩
  · norm_num [strictlyInside, nodeX, nodeY, nodeZ]
  · norm_num [strictlyInside, nodeX, nodeY, nodeZ]
  · norm_num [computeDRow]
  · norm_num [computeDRow, npInt1e6, dWeight, gridInd, nodeX, nodeY, nodeZ,
      List.filter]
  all_goals
    have habsh : |(1:ℚ)/2| = 1/2 := by
      rw [abs_of_nonneg]
      norm_num
    have habs2 : |(19999999:ℚ)/10000000 - 2| = 1/10000000 := by
      rw [abs_of_nonpos]
      norm_num
      norm_num
    have habs3 : |(19999999:ℚ)/10000000 - 3| = 10000001/10000000 := by
      rw [abs_of_nonpos]
      norm_num
      norm_num
    have hT : (Int.toNat 2) = (2:ℕ) := rfl
    have habsA : |(1:ℚ)/10000000| = 1/10000000 := by
      rw [abs_of_nonneg]
      norm_num
    have habsB : |(10000001:ℚ)/10000000| = 10000001/10000000 := by
      rw [abs_of_nonneg]
      norm_num
    norm_num [computeDRow, npInt1e6, dWeight, gridInd, nodeX, nodeY, nodeZ,
      hT, habsh, habs2, habs3, habsA, habsB]

theorem nodeX_succ (g : DGrid) (i : ℕ) : nodeX g (i+1) = nodeX g i + g.dx := by
  unfold nodeX
  push_cast
  ring

theorem gridInd_lt (g : DGrid) {i j k : ℕ} (hi : i < g.nx) (hj : j < g.ny)
    (hk : k < g.nz) : gridInd g i j k < g.nx * g.ny * g.nz := by
  unfold gridInd
  have h2 : (i+1) * g.ny ≤ g.nx * g.ny := Nat.mul_le_mul_right _ hi
  rw [Nat.succ_mul] at h2
  have h1 : i * g.ny + j + 1 ≤ g.nx * g.ny := by omega
  calc (i * g.ny + j) * g.nz + k < (i * g.ny + j) * g.nz + g.nz := by omega
    _ = (i * g.ny + j + 1) * g.nz := by ring
    _ ≤ (g.nx * g.ny) * g.nz := Nat.mul_le_mul_right _ h1
    _ = g.nx * g.ny * g.nz := by ring

theorem gridInd_inj (g : DGrid) {a b c a2 b2 c2 : ℕ} (hb : b < g.ny)
    (hb2 : b2 < g.ny) (hc : c < g.nz) (hc2 : c2 < g.nz)
    (h : gridInd g a b c = gridInd g a2 b2 c2) : a = a2 ∧ b = b2 ∧ c = c2 := by
  unfold gridInd at h
  have hnz : 0 < g.nz := by omega
  have hny : 0 < g.ny := by omega
  have hcc : c = c2 := by
    have h1 : ((a * g.ny + b) * g.nz + c) % g.nz
        = ((a2 * g.ny + b2) * g.nz + c2) % g.nz := by rw [h]
    rw [Nat.add_comm ((a * g.ny + b) * g.nz) c,
      Nat.add_comm ((a2 * g.ny + b2) * g.nz) c2,
      Nat.add_mul_mod_self_right, Nat.add_mul_mod_self_right,
      Nat.mod_eq_of_lt hc, Nat.mod_eq_of_lt hc2] at h1
    exact h1
  subst hcc
  have h2 : a * g.ny + b = a2 * g.ny + b2 :=
    Nat.eq_of_mul_eq_mul_right hnz (Nat.add_right_cancel h)
  have hbb : b = b2 := by
    have h3 : (a * g.ny + b) % g.ny = (a2 * g.ny + b2) % g.ny := by rw [h2]
    rw [Nat.add_comm (a * g.ny) b, Nat.add_comm (a2 * g.ny) b2,
      Nat.add_mul_mod_self_right, Nat.add_mul_mod_self_right,
      Nat.mod_eq_of_lt hb, Nat.mod_eq_of_lt hb2] at h3
    exact h3
  subst hbb
  exact ⟨Nat.eq_of_mul_eq_mul_right hny (Nat.add_right_cancel h2), rfl, rfl⟩

/-- Per-axis geometry of the snapped cell: when the truncated index `i1`
does not overshoot the point (the `1e-6` snap guard), the point lies
between nodes `i1` and `i1+1`, fixing the signs of the two weight
numerators. -/
theorem axisAbs (x0 px dx : ℚ) (i1 : ℕ) (hh : 0 < dx)
    (hi : i1 = npInt1e6 ((px - x0)/dx)) (hle : (i1:ℚ) ≤ (px - x0)/dx) :
    |px - (x0 + (i1:ℚ)*dx)| = px - (x0 + (i1:ℚ)*dx) ∧
    |px - (x0 + ((i1:ℚ)+1)*dx)| = (x0 + ((i1:ℚ)+1)*dx) - px := by
  have h1 : (x0 + (i1:ℚ)*dx) ≤ px := by
    have h1a := (le_div_iff₀ hh).mp hle
    linarith
  have h2 : px ≤ x0 + ((i1:ℚ)+1)*dx := by
    have hfl : (px - x0)/dx < (i1:ℚ) + 1 := by
      have ha : 1/1000000 + (px - x0)/dx
          < (⌊1/1000000 + (px - x0)/dx⌋ : ℚ) + 1 := Int.lt_floor_add_one _
      have hb : ((⌊1/1000000 + (px - x0)/dx⌋ : ℤ) : ℚ)
          ≤ (((⌊1/1000000 + (px - x0)/dx⌋).toNat : ℕ) : ℚ) := by
        exact_mod_cast Int.self_le_toNat _
      rw [hi]
      unfold npInt1e6
      linarith
    have h2a := (div_lt_iff₀ hh).mp hfl
    linarith
  refine ⟨abs_of_nonneg (by linarith), ?_⟩
  rw [abs_of_nonpos (by linarith)]
  ring

/-- C8, amended.  For a point whose three snapped cell indices
`i1 = int(1e-6 + (px-x0)/dx)` neither overshoot the point (each
`i1 ≤ (c-c0)/dx`, which a strictly interior point can violate only inside
the `1e-6·dx` band below a grid plane) nor leave the grid
(`i1+1 ≤ n-1`), the `computeD` row has exactly 8 stored entries, one per
corner of the snapped cell (8 pairwise distinct in-range column indices),
and its weights sum to exactly 1.  (Entries can still be zero when the
point lies on a cell face, and in the snap band the sum falls below 1 —
see the counterexample.) -/
theorem C8_computeD_row (g : DGrid) (p : ℚ × ℚ × ℚ) (i1 j1 k1 : ℕ)
    (hh : 0 < g.dx)
    (hi : i1 = npInt1e6 ((p.1 - g.x0) / g.dx))
    (hj : j1 = npInt1e6 ((p.2.1 - g.y0) / g.dx))
    (hk : k1 = npInt1e6 ((p.2.2 - g.z0) / g.dx))
    (hxle : (i1:ℚ) ≤ (p.1 - g.x0) / g.dx)
    (hyle : (j1:ℚ) ≤ (p.2.1 - g.y0) / g.dx)
    (hzle : (k1:ℚ) ≤ (p.2.2 - g.z0) / g.dx)
    (hxn : i1 + 1 < g.nx) (hyn : j1 + 1 < g.ny) (hzn : k1 + 1 < g.nz) :
    (computeDRow g p).length = 8 ∧
    (computeDRow g p).map Prod.fst
      = [gridInd g i1 j1 k1, gridInd g i1 j1 (k1+1),
         gridInd g i1 (j1+1) k1, gridInd g i1 (j1+1) (k1+1),
         gridInd g (i1+1) j1 k1, gridInd g (i1+1) j1 (k1+1),
         gridInd g (i1+1) (j1+1) k1, gridInd g (i1+1) (j1+1) (k1+1)] ∧
    ((computeDRow g p).map Prod.fst).Nodup ∧
    (∀ col ∈ (computeDRow g p).map Prod.fst, col < g.nx * g.ny * g.nz) ∧
    ((computeDRow g p).map Prod.snd).sum = 1 := by
  have hcols : (computeDRow g p).map Prod.fst
      = [gridInd g i1 j1 k1, gridInd g i1 j1 (k1+1),
         gridInd g i1 (j1+1) k1, gridInd g i1 (j1+1) (k1+1),
         gridInd g (i1+1) j1 k1, gridInd g (i1+1) j1 (k1+1),
         gridInd g (i1+1) (j1+1) k1, gridInd g (i1+1) (j1+1) (k1+1)] := by
    simp only [computeDRow, List.map_cons, List.map_nil, ← hi, ← hj, ← hk]
  refine ⟨by simp [computeDRow], hcols, ?_, ?_, ?_⟩
  · rw [hcols]
    have htrip : ([(i1,j1,k1), (i1,j1,k1+1), (i1,j1+1,k1), (i1,j1+1,k1+1),
        (i1+1,j1,k1), (i1+1,j1,k1+1), (i1+1,j1+1,k1), (i1+1,j1+1,k1+1)]
        : List (ℕ × ℕ × ℕ)).Nodup := by
      simp [List.nodup_cons, Prod.mk.injEq]
    have hmap : [gridInd g i1 j1 k1, gridInd g i1 j1 (k1+1),
         gridInd g i1 (j1+1) k1, gridInd g i1 (j1+1) (k1+1),
         gridInd g (i1+1) j1 k1, gridInd g (i1+1) j1 (k1+1),
         gridInd g (i1+1) (j1+1) k1, gridInd g (i1+1) (j1+1) (k1+1)]
        = ([(i1,j1,k1), (i1,j1,k1+1), (i1,j1+1,k1), (i1,j1+1,k1+1),
            (i1+1,j1,k1), (i1+1,j1,k1+1), (i1+1,j1+1,k1), (i1+1,j1+1,k1+1)]
           : List (ℕ × ℕ × ℕ)).map (fun t => gridInd g t.1 t.2.1 t.2.2) := rfl
    rw [hmap]
    refine List.Nodup.map_on ?_ htrip
    intro x hx y hy heq
    have hbx : x.2.1 < g.ny ∧ x.2.2 < g.nz := by
      simp only [List.mem_cons, List.not_mem_nil, or_false] at hx
      rcases hx with rfl|rfl|rfl|rfl|rfl|rfl|rfl|rfl <;>
        exact ⟨by simp only; omega, by simp only; omega⟩
    have hby : y.2.1 < g.ny ∧ y.2.2 < g.nz := by
      simp only [List.mem_cons, List.not_mem_nil, or_false] at hy
      rcases hy with rfl|rfl|rfl|rfl|rfl|rfl|rfl|rfl <;>
        exact ⟨by simp only; omega, by simp only; omega⟩
    obtain ⟨h1, h2, h3⟩ := gridInd_inj g hbx.1 hby.1 hbx.2 hby.2 heq
    exact Prod.ext h1 (Prod.ext h2 h3)
  · rw [hcols]
    intro col hcol
    simp only [List.mem_cons, List.not_mem_nil, or_false] at hcol
    rcases hcol with rfl | rfl | rfl | rfl | rfl | rfl | rfl | rfl <;>
      exact gridInd_lt g (by omega) (by omega) (by omega)
  · have hax := axisAbs g.x0 p.1 g.dx i1 hh hi hxle
    have hay := axisAbs g.y0 p.2.1 g.dx j1 hh hj hyle
    have haz := axisAbs g.z0 p.2.2 g.dx k1 hh hk hzle
    have hdx : g.dx ≠ 0 := ne_of_gt hh
    simp only [computeDRow, ← hi, ← hj, ← hk, List.map_cons, List.map_nil,
      List.sum_cons, List.sum_nil, dWeight, nodeX, nodeY, nodeZ]
    push_cast
    rw [hax.1, hax.2, hay.1, hay.2, haz.1, haz.2]
    field_simp
    ring

/-- Witness for `C8_computeD_row`: the cell-centre `(1/2,1/2,1/2)` of a
`3×3×3` unit grid. -/
theorem C8_computeD_row_witness :
    ((computeDRow ⟨0, 0, 0, 3, 3, 3, 1⟩ ((1:ℚ)/2, 1/2, 1/2)).map Prod.snd).sum
      = 1 ∧
    ((computeDRow ⟨0, 0, 0, 3, 3, 3, 1⟩ ((1:ℚ)/2, 1/2, 1/2)).map Prod.fst).Nodup := by
  have h := C8_computeD_row ⟨0, 0, 0, 3, 3, 3, 1⟩ ((1:ℚ)/2, 1/2, 1/2) 0 0 0
    (by norm_num) (by norm_num [npInt1e6]) (by norm_num [npInt1e6])
    (by norm_num [npInt1e6]) (by norm_num) (by norm_num) (by norm_num)
    (by norm_num) (by norm_num) (by norm_num)
  exact ⟨h.2.2.2.2, h.2.2.1⟩

end HypoPy
